import Mathlib

/-!
Verification of the deadlock prevention toolkit simulator.

The source is a single Python file.  Its core is the class Simulator with
string-keyed dictionaries of Resource and Process records, the operations
add_resource, add_process, set_max_demand, request and release, a wait-for
graph builder with DFS cycle detection, and a Bankers-algorithm safety
oracle.  Python dictionaries preserve insertion order and have unique keys;
they are embedded here as association lists (List (String x value)) with
lookup by first occurrence, update in place and append on fresh keys.
Counts are natural numbers, matching the interface contract that all counts
are non-negative integers; Python max(0, a - b) on non-negative operands is
Nat subtraction.  Operations that raise in Python return an Except paired
with the post state; every raise in the source happens before any mutation,
so the paired state in an error branch is the input state.
-/

/-- Lookup in an association list: first entry with the given key,
mirroring a Python dictionary access. -/
def lookupK {α : Type} : List (String × α) → String → Option α
  | [], _ => none
  | (k, v) :: t, key => if k = key then some v else lookupK t key

/-- Key membership test, mirroring the Python `in` operator on a dict. -/
def containsK {α : Type} (m : List (String × α)) (k : String) : Bool :=
  (lookupK m k).isSome

/-- Lookup with default 0, mirroring dict.get(k, 0) on an int-valued dict
(also the read of a defaultdict(int) entry). -/
def getK (m : List (String × Nat)) (k : String) : Nat :=
  (lookupK m k).getD 0

/-- Store a value under a key: replace the entry in place if the key is
present, append otherwise (Python dict assignment keeps insertion order). -/
def setK {α : Type} (m : List (String × α)) (k : String) (v : α) :
    List (String × α) :=
  if containsK m k then m.map (fun p => (p.1, if p.1 = k then v else p.2))
  else m ++ [(k, v)]

/-- Delete every entry with the given key (Python del on a dict; keys are
unique in states reachable through the API). -/
def eraseK {α : Type} (m : List (String × α)) (k : String) :
    List (String × α) :=
  m.filter (fun p => p.1 != k)

/-- Keys of an association list, in order. -/
def keysOf {α : Type} (m : List (String × α)) : List String :=
  m.map Prod.fst

/-- Point update of a function-represented map (used for the working
copies inside the Bankers oracle and the DFS visitation map). -/
def fupd {α : Type} (f : String → α) (k : String) (v : α) : String → α :=
  fun x => if x = k then v else f x

/-- Point update of a curried two-key map. -/
def fupd2 {α : Type} (f : String → String → α) (k₁ k₂ : String) (v : α) :
    String → String → α :=
  fun x y => if x = k₁ ∧ y = k₂ then v else f x y

/-- Resource record: class Resource of the source.  available is
initialised to total by the constructor. -/
structure Resource where
  rid : String
  total : Nat
  available : Nat
deriving DecidableEq

/-- Process record: class Process of the source, with its three
resource-count maps (defaultdict(int) in Python). -/
structure Process where
  pid : String
  allocated : List (String × Nat)
  requesting : List (String × Nat)
  max_demand : List (String × Nat)
deriving DecidableEq

/-- The registry owned by class Simulator: resources and processes by id,
in insertion order. -/
structure Simulator where
  resources : List (String × Resource)
  processes : List (String × Process)
deriving DecidableEq

/-- A fresh simulator: both registries empty. -/
def emptySim : Simulator := ⟨[], []⟩

/-- The in-place mutation of the process record on a granted request:
allocated[rid] += count on the defaultdict, then, when a truthy requesting
entry exists, requesting[rid] = max(0, requesting[rid] - count). -/
def grantUpd (p : Process) (rid : String) (count : Nat) : Process :=
  let p1 : Process :=
    { p with allocated := setK p.allocated rid (getK p.allocated rid + count) }
  match lookupK p1.requesting rid with
  | some v =>
    if v ≠ 0 then { p1 with requesting := setK p1.requesting rid (v - count) }
    else p1
  | none => p1

/-- The in-place mutation of the process record on a blocked request:
requesting[rid] += count on the defaultdict. -/
def blockUpd (p : Process) (rid : String) (count : Nat) : Process :=
  { p with requesting := setK p.requesting rid (getK p.requesting rid + count) }

/-- The in-place mutation of the process record on release: the
defaultdict read and subtraction store held - freed, then the entry is
deleted when the stored value is zero. -/
def releaseUpd (p : Process) (rid : String) (count : Nat) : Process :=
  let held := getK p.allocated rid
  let freed := min held count
  let a1 := setK p.allocated rid (held - freed)
  let a2 := if getK a1 rid = 0 ∧ containsK a1 rid then eraseK a1 rid else a1
  { p with allocated := a2 }

namespace Simulator

/-- Simulator.add_resource: reject a duplicate id, otherwise insert a
resource with available = total. -/
def add_resource (s : Simulator) (rid : String) (total : Nat) :
    Except String Unit × Simulator :=
  if containsK s.resources rid then
    (.error ("Resource " ++ rid ++ " already exists"), s)
  else
    (.ok (), { s with resources := s.resources ++ [(rid, ⟨rid, total, total⟩)] })

/-- Simulator.add_process: reject a duplicate id, otherwise insert a
process with empty maps. -/
def add_process (s : Simulator) (pid : String) :
    Except String Unit × Simulator :=
  if containsK s.processes pid then
    (.error ("Process " ++ pid ++ " already exists"), s)
  else
    (.ok (), { s with processes := s.processes ++ [(pid, ⟨pid, [], [], []⟩)] })

/-- Simulator.set_max_demand: indexing self.processes raises KeyError for
an unknown pid; otherwise assign max_demand of the process at rid.  The
resource id is not validated at all. -/
def set_max_demand (s : Simulator) (pid rid : String) (count : Nat) :
    Except String Unit × Simulator :=
  match lookupK s.processes pid with
  | none => (.error ("KeyError: " ++ pid), s)
  | some p =>
    let p' : Process := { p with max_demand := setK p.max_demand rid count }
    (.ok (), { s with processes := setK s.processes pid p' })

/-- Simulator.request: validate pid then rid; if available >= count grant
(decrement available, increment allocated, and if a nonzero requesting
entry exists reduce it, floored at 0), else record the blocked request by
adding count to requesting. -/
def request (s : Simulator) (pid rid : String) (count : Nat) :
    Except String Bool × Simulator :=
  match lookupK s.processes pid with
  | none => (.error ("Unknown process " ++ pid), s)
  | some p =>
    match lookupK s.resources rid with
    | none => (.error ("Unknown resource " ++ rid), s)
    | some r =>
      if count ≤ r.available then
        (.ok true,
         { s with
             resources := setK s.resources rid { r with available := r.available - count },
             processes := setK s.processes pid (grantUpd p rid count) })
      else
        (.ok false, { s with processes := setK s.processes pid (blockUpd p rid count) })

/-- Simulator.release: validate pid then rid; freed = min(held, count);
subtract freed from the allocated entry (the defaultdict read creates the
entry), delete it when it reaches zero, and add freed back to available. -/
def release (s : Simulator) (pid rid : String) (count : Nat) :
    Except String Nat × Simulator :=
  match lookupK s.processes pid with
  | none => (.error ("Unknown process " ++ pid), s)
  | some p =>
    match lookupK s.resources rid with
    | none => (.error ("Unknown resource " ++ rid), s)
    | some r =>
      let freed := min (getK p.allocated rid) count
      (.ok freed,
       { s with
           processes := setK s.processes pid (releaseUpd p rid count),
           resources := setK s.resources rid { r with available := r.available + freed } })

end Simulator

/-- The five mutating operations of the core interface, for quantifying
over operation sequences. -/
inductive Op where
  | addResource (rid : String) (total : Nat)
  | addProcess (pid : String)
  | setMaxDemand (pid rid : String) (count : Nat)
  | request (pid rid : String) (count : Nat)
  | release (pid rid : String) (count : Nat)

/-- Apply one operation, keeping the post state (on failure the post state
is the input state, matching the Python methods which raise before any
mutation). -/
def applyOp (s : Simulator) : Op → Simulator
  | .addResource rid total => (s.add_resource rid total).2
  | .addProcess pid => (s.add_process pid).2
  | .setMaxDemand pid rid c => (s.set_max_demand pid rid c).2
  | .request pid rid c => (s.request pid rid c).2
  | .release pid rid c => (s.release pid rid c).2

/-- Run a sequence of operations from a state. -/
def runOps (s : Simulator) (ops : List Op) : Simulator :=
  ops.foldl applyOp s

/-- Units of a resource held across all processes: the sum of the
allocated entries for that resource. -/
def sumAlloc (procs : List (String × Process)) (rid : String) : Nat :=
  (procs.map (fun pr => getK pr.2.allocated rid)).sum

/-! Bankers algorithm (Simulator.bankers_is_safe_after_grant).  The Python
method builds working copies of available, alloc and need keyed by the
registered resource and process ids; here those copies are functions whose
values agree with the dictionaries on the registered ids.  The while loop
is a fixed point computation; it is embedded with fuel #processes + 1,
which the termination theorem shows is enough to reach the pass that makes
no progress. -/

/-- Registered process ids in registration order. -/
def bankerProcs (s : Simulator) : List String := keysOf s.processes

/-- Registered resource ids in registration order. -/
def bankerRes (s : Simulator) : List String := keysOf s.resources

/-- Working copy of available: available[r] of the registered resource. -/
def availOf (s : Simulator) (r : String) : Nat :=
  match lookupK s.resources r with
  | some rr => rr.available
  | none => 0

/-- Working copy of alloc: the allocated entry of the registered process,
absent entries reading 0. -/
def allocOf (s : Simulator) (p r : String) : Nat :=
  match lookupK s.processes p with
  | some pp => getK pp.allocated r
  | none => 0

/-- Working copy of need: max(0, max_demand - alloc), which on natural
numbers is truncated subtraction. -/
def needOf (s : Simulator) (p r : String) : Nat :=
  (match lookupK s.processes p with
   | some pp => getK pp.max_demand r
   | none => 0) - allocOf s p r

/-- alloc after the tentative grant: alloc[pid][rid] += count. -/
def allocG (s : Simulator) (pid rid : String) (count : Nat) :
    String → String → Nat :=
  fupd2 (allocOf s) pid rid (allocOf s pid rid + count)

/-- need after the tentative grant: need[pid][rid] = max(0, need - count). -/
def needG (s : Simulator) (pid rid : String) (count : Nat) :
    String → String → Nat :=
  fupd2 (needOf s) pid rid (needOf s pid rid - count)

/-- Mutable state of the fixed point loop: available, the finish map
(initially false on every process) and the safe sequence being built. -/
structure BSt where
  avail : String → Nat
  finish : String → Bool
  seq : List String

/-- Loop state after the tentative grant, before the first pass:
available[rid] -= count, nobody finished, empty sequence. -/
def bankerInit (s : Simulator) (rid : String) (count : Nat) : BSt :=
  ⟨fupd (availOf s) rid (availOf s rid - count), fun _ => false, []⟩

/-- One pass of the for loop over the processes: each unfinished process
whose need is within available is finished, its allocation added back to
available and its id appended to the sequence; the flag records whether
any process was finished during the pass. -/
def bankerPassGo (res : List String) (alloc need : String → String → Nat) :
    List String → BSt → Bool → BSt × Bool
  | [], st, prog => (st, prog)
  | p :: ps, st, prog =>
    if st.finish p then bankerPassGo res alloc need ps st prog
    else if res.all (fun r => decide (need p r ≤ st.avail r)) then
      bankerPassGo res alloc need ps
        ⟨res.foldl (fun av r => fupd av r (av r + alloc p r)) st.avail,
         fupd st.finish p true, st.seq ++ [p]⟩ true
    else bankerPassGo res alloc need ps st prog

/-- The while True loop: run passes until one makes no progress.  Fuel
bounds the number of passes; fuel 0 returns the state unchanged and is
unreachable from the fuel used by the oracle. -/
def bankerLoop (procs res : List String) (alloc need : String → String → Nat) :
    Nat → BSt → BSt
  | 0, st => st
  | fuel + 1, st =>
    match bankerPassGo res alloc need procs st false with
    | (st', true) => bankerLoop procs res alloc need fuel st'
    | (st', false) => st'

/-- Instrumented variant of the loop returning, besides the final state,
the number of passes that examined at least one unfinished process; none
means the fuel ran out before the loop reached its exit. -/
def bankerRun (procs res : List String) (alloc need : String → String → Nat) :
    Nat → BSt → Option (BSt × Nat)
  | 0, _ => none
  | fuel + 1, st =>
    let scan : Nat := if procs.any (fun p => !st.finish p) then 1 else 0
    match bankerPassGo res alloc need procs st false with
    | (st', true) =>
      (bankerRun procs res alloc need fuel st').map (fun rc => (rc.1, rc.2 + scan))
    | (st', false) => some (st', scan)

/-- State of the working copies when the loop exits, with the fuel the
oracle uses. -/
def bankerFinal (s : Simulator) (pid rid : String) (count : Nat) : BSt :=
  bankerLoop (bankerProcs s) (bankerRes s) (allocG s pid rid count)
    (needG s pid rid count) (s.processes.length + 1) (bankerInit s rid count)

/-- Simulator.bankers_is_safe_after_grant: fail fast with (False, []) when
rid is not a key of the available copy or available[rid] < count; then the
tentative grant alloc[pid][rid] += count raises KeyError when pid is not a
registered process; otherwise run the fixed point and report safety with
the constructed sequence.  The real registry is never written: the method
returns the input state. -/
def Simulator.bankers_is_safe_after_grant (s : Simulator) (pid rid : String)
    (count : Nat) : Except String (Bool × List String) × Simulator :=
  if containsK s.resources rid = false then (.ok (false, []), s)
  else if availOf s rid < count then (.ok (false, []), s)
  else if containsK s.processes pid = false then (.error ("KeyError: " ++ pid), s)
  else
    let final := bankerFinal s pid rid count
    let is_safe := (bankerProcs s).all final.finish
    (.ok (is_safe, if is_safe then final.seq else []), s)

/-! Wait-for graph and cycle detection.  The Python builder returns a dict
from process id to a set of process ids; the set is embedded as a
duplicate-free list in insertion order.  The DFS mirrors the recursive
dfs with the visited map (1 = on stack, 2 = done), the explicit stack and
the cycles list; fuel bounds the recursion depth (each recursive call is
on a node not yet visited, so #processes + 1 is enough). -/

/-- wfg[u].add(v) on the defaultdict(set): create the entry on first use,
ignore a repeated edge. -/
def addEdge (wfg : List (String × List String)) (u v : String) :
    List (String × List String) :=
  match lookupK wfg u with
  | some adj => if v ∈ adj then wfg else setK wfg u (adj ++ [v])
  | none => wfg ++ [(u, [v])]

/-- Simulator.build_wait_for_graph: for every process with a positive
requesting entry, an edge to every other process holding that resource. -/
def Simulator.build_wait_for_graph (s : Simulator) :
    List (String × List String) :=
  s.processes.foldl
    (fun wfg pp =>
      pp.2.requesting.foldl
        (fun wfg rq =>
          if rq.2 = 0 then wfg
          else
            s.processes.foldl
              (fun wfg op =>
                if op.1 = pp.1 then wfg
                else if 0 < getK op.2.allocated rq.1 then addEdge wfg pp.1 op.1
                else wfg)
              wfg)
        wfg)
    []

/-- DFS bookkeeping: visited (none, some 1 = on stack, some 2 = done), the
explicit stack in push order and the recorded cycles. -/
structure DSt where
  visited : String → Option Nat
  stack : List String
  cycles : List (List String)

/-- The recursive dfs of Simulator.detect_deadlock: mark the node on
stack, push it, walk its adjacency list (recording a cycle as the stack
slice from the first occurrence of an on-stack target, recursing into
unvisited targets, skipping done ones), then pop and mark done. -/
def dfsNode (g : String → List String) : Nat → String → DSt → DSt
  | 0, _, st => st
  | fuel + 1, u, st =>
    let st1 : DSt := ⟨fupd st.visited u (some 1), st.stack ++ [u], st.cycles⟩
    let st2 : DSt :=
      (g u).foldl
        (fun (st : DSt) v =>
          match st.visited v with
          | some w =>
            if w = 1 then
              match st.stack.findIdx? (fun x => x == v) with
              | some idx => ⟨st.visited, st.stack, st.cycles ++ [st.stack.drop idx]⟩
              | none => st
            else st
          | none => dfsNode g fuel v st)
        st1
    ⟨fupd st2.visited u (some 2), st2.stack.dropLast, st2.cycles⟩

/-- Simulator.detect_deadlock: run the dfs from every not yet visited
process in registration order and report (cycles nonempty, cycles). -/
def Simulator.detect_deadlock (s : Simulator) : Bool × List (List String) :=
  let graph := s.build_wait_for_graph
  let g : String → List String := fun u => (lookupK graph u).getD []
  let fuel := s.processes.length + 1
  let st :=
    s.processes.foldl
      (fun (st : DSt) pr =>
        match st.visited pr.1 with
        | none => dfsNode g fuel pr.1 st
        | some _ => st)
      ⟨fun _ => none, [], []⟩
  (decide (0 < st.cycles.length), st.cycles)

/-! Association list lemmas. -/

theorem lookupK_eq_none_iff {α : Type} {m : List (String × α)} {k : String} :
    lookupK m k = none ↔ k ∉ keysOf m := by
  induction m with
  | nil => simp [lookupK, keysOf]
  | cons h t ih =>
    obtain ⟨a, b⟩ := h
    simp only [lookupK, keysOf, List.map_cons, List.mem_cons]
    by_cases hak : a = k
    · subst hak; simp
    · simp [hak, ih, keysOf, Ne.symm hak]

theorem containsK_eq_false_iff {α : Type} {m : List (String × α)} {k : String} :
    containsK m k = false ↔ lookupK m k = none := by
  unfold containsK
  cases lookupK m k <;> simp

theorem containsK_eq_true_iff {α : Type} {m : List (String × α)} {k : String} :
    containsK m k = true ↔ ∃ v, lookupK m k = some v := by
  unfold containsK
  cases lookupK m k <;> simp

theorem lookupK_map_set {α : Type} (m : List (String × α)) (k k' : String)
    (v : α) :
    lookupK (m.map (fun p => (p.1, if p.1 = k then v else p.2))) k' =
      if k = k' ∧ containsK m k' = true then some v
      else (lookupK m k').map (fun b => if k' = k then v else b) := by
  induction m with
  | nil => simp [lookupK, containsK]
  | cons h t ih =>
    obtain ⟨a, b⟩ := h
    by_cases hak' : a = k'
    · subst hak'
      by_cases hak : a = k
      · subst hak
        simp [lookupK, containsK]
      · simp [lookupK, hak, Ne.symm hak, containsK]
    · have hcont : containsK ((a, b) :: t) k' = containsK t k' := by
        simp [containsK, lookupK, hak']
      simp only [List.map_cons, lookupK, hak', if_neg hak', hcont]
      exact ih

theorem lookupK_append_last {α : Type} (m : List (String × α)) (k k' : String)
    (v : α) :
    lookupK (m ++ [(k, v)]) k' =
      if containsK m k' = true then lookupK m k'
      else if k = k' then some v else none := by
  induction m with
  | nil => simp [lookupK, containsK]
  | cons h t ih =>
    obtain ⟨a, b⟩ := h
    by_cases hak' : a = k'
    · simp [lookupK, hak', containsK]
    · have hcont : containsK ((a, b) :: t) k' = containsK t k' := by
        simp [containsK, lookupK, hak']
      simp only [List.cons_append, lookupK, if_neg hak', hcont]
      exact ih

theorem lookupK_setK {α : Type} (m : List (String × α)) (k k' : String) (v : α) :
    lookupK (setK m k v) k' = if k = k' then some v else lookupK m k' := by
  unfold setK
  by_cases hc : containsK m k = true
  · rw [if_pos hc, lookupK_map_set]
    by_cases hkk : k = k'
    · subst hkk
      simp [hc]
    · rw [if_neg (by simp [hkk]), if_neg hkk]
      cases lookupK m k' with
      | none => simp
      | some b => simp [Ne.symm hkk]
  · have hc' : containsK m k = false := by simpa using hc
    rw [if_neg hc, lookupK_append_last]
    by_cases hkk : k = k'
    · subst hkk
      rw [if_neg (by simp [hc']), if_pos rfl, if_pos rfl]
    · by_cases hck' : containsK m k' = true
      · rw [if_pos hck', if_neg hkk]
      · rw [if_neg hck', if_neg hkk, if_neg hkk]
        exact (containsK_eq_false_iff.mp (by simpa using hck')).symm

theorem getK_setK (m : List (String × Nat)) (k k' : String) (v : Nat) :
    getK (setK m k v) k' = if k = k' then v else getK m k' := by
  unfold getK
  rw [lookupK_setK]
  by_cases hkk : k = k' <;> simp [hkk]

theorem eraseK_cons_self {α : Type} (a : String) (b : α) (t : List (String × α)) :
    eraseK ((a, b) :: t) a = eraseK t a := by
  simp [eraseK, List.filter_cons]

theorem eraseK_cons_ne {α : Type} {a k : String} (b : α)
    (t : List (String × α)) (hak : a ≠ k) :
    eraseK ((a, b) :: t) k = (a, b) :: eraseK t k := by
  have hbne : ((a, b).1 != k) = true := by simp [hak]
  simp [eraseK, List.filter_cons, hbne]

theorem lookupK_eraseK_self {α : Type} (m : List (String × α)) (k : String) :
    lookupK (eraseK m k) k = none := by
  induction m with
  | nil => simp [eraseK, lookupK]
  | cons h t ih =>
    obtain ⟨a, b⟩ := h
    by_cases hak : a = k
    · subst hak
      rw [eraseK_cons_self]
      exact ih
    · rw [eraseK_cons_ne b t hak]
      show (if a = k then some b else lookupK (eraseK t k) k) = none
      rw [if_neg hak]
      exact ih

theorem lookupK_eraseK_ne {α : Type} (m : List (String × α)) (k k' : String)
    (hne : k' ≠ k) : lookupK (eraseK m k) k' = lookupK m k' := by
  induction m with
  | nil => rfl
  | cons h t ih =>
    obtain ⟨a, b⟩ := h
    by_cases hak : a = k
    · rw [hak, eraseK_cons_self]
      show lookupK (eraseK t k) k' = if k = k' then some b else lookupK t k'
      rw [if_neg (Ne.symm hne)]
      exact ih
    · rw [eraseK_cons_ne b t hak]
      show (if a = k' then some b else lookupK (eraseK t k) k') =
        if a = k' then some b else lookupK t k'
      rw [ih]

theorem getK_eraseK (m : List (String × Nat)) (k k' : String) :
    getK (eraseK m k) k' = if k' = k then 0 else getK m k' := by
  by_cases hkk : k' = k
  · subst hkk; simp [getK, lookupK_eraseK_self]
  · simp [getK, lookupK_eraseK_ne m k k' hkk, hkk]

theorem keysOf_setK_of_contains {α : Type} (m : List (String × α)) (k : String)
    (v : α) (hc : containsK m k = true) : keysOf (setK m k v) = keysOf m := by
  unfold setK
  rw [if_pos hc]
  simp [keysOf]

theorem keysOf_setK_of_not_contains {α : Type} (m : List (String × α))
    (k : String) (v : α) (hc : containsK m k = false) :
    keysOf (setK m k v) = keysOf m ++ [k] := by
  unfold setK
  rw [if_neg (by simp [hc])]
  simp [keysOf]

theorem keysOf_cons {α : Type} (a : String) (b : α) (t : List (String × α)) :
    keysOf ((a, b) :: t) = a :: keysOf t := rfl

theorem containsK_setK_self {α : Type} (m : List (String × α)) (k : String)
    (v : α) : containsK (setK m k v) k = true := by
  simp [containsK, lookupK_setK]

theorem map_set_id {α : Type} (l : List (String × α)) (k : String) (v : α)
    (h : k ∉ keysOf l) :
    l.map (fun q => (q.1, if q.1 = k then v else q.2)) = l := by
  induction l with
  | nil => rfl
  | cons hd t ih =>
    obtain ⟨a, b⟩ := hd
    rw [keysOf_cons, List.mem_cons] at h
    push_neg at h
    simp only [List.map_cons, if_neg (Ne.symm h.1)]
    rw [ih h.2]

theorem sumAlloc_cons (a : String) (b : Process) (t : List (String × Process))
    (rid : String) :
    sumAlloc ((a, b) :: t) rid = getK b.allocated rid + sumAlloc t rid := by
  simp [sumAlloc]

theorem sumAlloc_append (l l₂ : List (String × Process)) (rid : String) :
    sumAlloc (l ++ l₂) rid = sumAlloc l rid + sumAlloc l₂ rid := by
  simp [sumAlloc]

theorem sumAlloc_map_set (l : List (String × Process)) (pid : String)
    (p p' : Process) (rid : String) (hnd : (keysOf l).Nodup)
    (hp : lookupK l pid = some p) :
    sumAlloc (l.map (fun q => (q.1, if q.1 = pid then p' else q.2))) rid
        + getK p.allocated rid
      = sumAlloc l rid + getK p'.allocated rid := by
  induction l with
  | nil => simp [lookupK] at hp
  | cons hd t ih =>
    obtain ⟨a, b⟩ := hd
    rw [keysOf_cons, List.nodup_cons] at hnd
    by_cases hak : a = pid
    · have hb : b = p := by
        simpa [lookupK, hak] using hp
      subst hb
      subst hak
      have htid : t.map (fun q => (q.1, if q.1 = a then p' else q.2)) = t :=
        map_set_id t a p' hnd.1
      simp [htid, sumAlloc_cons]
      omega
    · have hp' : lookupK t pid = some p := by
        simpa [lookupK, hak] using hp
      have := ih hnd.2 hp'
      simp only [List.map_cons, if_neg hak, sumAlloc_cons]
      omega

theorem sumAlloc_setK (l : List (String × Process)) (pid : String)
    (p p' : Process) (rid : String) (hnd : (keysOf l).Nodup)
    (hp : lookupK l pid = some p) :
    sumAlloc (setK l pid p') rid + getK p.allocated rid
      = sumAlloc l rid + getK p'.allocated rid := by
  have hc : containsK l pid = true := containsK_eq_true_iff.mpr ⟨p, hp⟩
  unfold setK
  rw [if_pos hc]
  exact sumAlloc_map_set l pid p p' rid hnd hp

theorem sumAlloc_setK_eq (l : List (String × Process)) (pid : String)
    (p p' : Process) (rid : String) (hnd : (keysOf l).Nodup)
    (hp : lookupK l pid = some p)
    (halloc : getK p'.allocated rid = getK p.allocated rid) :
    sumAlloc (setK l pid p') rid = sumAlloc l rid := by
  have := sumAlloc_setK l pid p p' rid hnd hp
  omega

/-! Projections of the three process updates. -/

theorem grantUpd_allocated (p : Process) (rid : String) (count : Nat) :
    (grantUpd p rid count).allocated
      = setK p.allocated rid (getK p.allocated rid + count) := by
  cases hreq : lookupK p.requesting rid with
  | none => simp [grantUpd, hreq]
  | some v => by_cases hv : v = 0 <;> simp [grantUpd, hreq, hv]

theorem grantUpd_max_demand (p : Process) (rid : String) (count : Nat) :
    (grantUpd p rid count).max_demand = p.max_demand := by
  cases hreq : lookupK p.requesting rid with
  | none => simp [grantUpd, hreq]
  | some v => by_cases hv : v = 0 <;> simp [grantUpd, hreq, hv]

theorem grantUpd_requesting_getK (p : Process) (rid rid' : String)
    (count : Nat) :
    getK (grantUpd p rid count).requesting rid'
      = if rid = rid' then getK p.requesting rid - count
        else getK p.requesting rid' := by
  cases hreq : lookupK p.requesting rid with
  | none =>
    simp only [grantUpd, hreq]
    by_cases hrr : rid = rid'
    · subst hrr; simp [getK, hreq]
    · simp [hrr]
  | some v =>
    by_cases hv : v = 0
    · subst hv
      simp only [grantUpd, hreq]
      by_cases hrr : rid = rid'
      · subst hrr; simp [getK, hreq]
      · simp [hrr]
    · simp only [grantUpd, hreq, ne_eq, hv, not_false_eq_true, if_true, getK_setK]
      by_cases hrr : rid = rid'
      · subst hrr; simp [getK, hreq]
      · simp [hrr]

theorem blockUpd_allocated (p : Process) (rid : String) (count : Nat) :
    (blockUpd p rid count).allocated = p.allocated := rfl

theorem blockUpd_max_demand (p : Process) (rid : String) (count : Nat) :
    (blockUpd p rid count).max_demand = p.max_demand := rfl

theorem blockUpd_requesting_getK (p : Process) (rid rid' : String)
    (count : Nat) :
    getK (blockUpd p rid count).requesting rid'
      = if rid = rid' then getK p.requesting rid + count
        else getK p.requesting rid' := by
  unfold blockUpd
  simp only [getK_setK]

theorem releaseUpd_allocated_getK (p : Process) (rid rid' : String)
    (count : Nat) :
    getK (releaseUpd p rid count).allocated rid'
      = if rid = rid'
        then getK p.allocated rid - min (getK p.allocated rid) count
        else getK p.allocated rid' := by
  simp only [releaseUpd]
  by_cases hz :
      getK (setK p.allocated rid (getK p.allocated rid - min (getK p.allocated rid) count)) rid = 0
      ∧ containsK (setK p.allocated rid (getK p.allocated rid - min (getK p.allocated rid) count)) rid = true
  · rw [if_pos hz]
    have hz' : getK p.allocated rid - min (getK p.allocated rid) count = 0 := by
      have h1 := hz.1
      rwa [getK_setK, if_pos rfl] at h1
    simp only [getK_eraseK, getK_setK]
    by_cases hrr : rid = rid'
    · subst hrr; simp [hz']
    · simp [hrr, Ne.symm hrr]
  · rw [if_neg hz]
    rw [getK_setK]

theorem releaseUpd_requesting (p : Process) (rid : String) (count : Nat) :
    (releaseUpd p rid count).requesting = p.requesting := by
  simp only [releaseUpd]

theorem releaseUpd_allocated_entry (p : Process) (rid : String) (count : Nat) :
    lookupK (releaseUpd p rid count).allocated rid
      = if getK p.allocated rid ≤ count then none
        else some (getK p.allocated rid - count) := by
  simp only [releaseUpd]
  have hget : getK (setK p.allocated rid (getK p.allocated rid - min (getK p.allocated rid) count)) rid
      = getK p.allocated rid - min (getK p.allocated rid) count := by
    rw [getK_setK, if_pos rfl]
  have hcont := containsK_setK_self p.allocated rid
    (getK p.allocated rid - min (getK p.allocated rid) count)
  by_cases hle : getK p.allocated rid ≤ count
  · have hz : getK p.allocated rid - min (getK p.allocated rid) count = 0 := by
      omega
    rw [if_pos (⟨by rw [hget]; exact hz, hcont⟩ :
      getK (setK p.allocated rid (getK p.allocated rid - min (getK p.allocated rid) count)) rid = 0
      ∧ containsK (setK p.allocated rid (getK p.allocated rid - min (getK p.allocated rid) count)) rid = true)]
    rw [if_pos hle]
    exact lookupK_eraseK_self _ rid
  · have hz : ¬(getK p.allocated rid - min (getK p.allocated rid) count = 0) := by
      omega
    rw [if_neg (fun hh => hz (by rw [← hget]; exact hh.1))]
    rw [if_neg hle]
    rw [lookupK_setK, if_pos rfl]
    congr 1
    omega

/-! Shape of each operation under the possible guard outcomes. -/

theorem add_resource_err (s : Simulator) (rid : String) (total : Nat)
    (hc : containsK s.resources rid = true) :
    s.add_resource rid total
      = (.error ("Resource " ++ rid ++ " already exists"), s) := by
  simp [Simulator.add_resource, hc]

theorem add_resource_ok (s : Simulator) (rid : String) (total : Nat)
    (hc : containsK s.resources rid = false) :
    s.add_resource rid total
      = (.ok (), { s with resources := s.resources ++ [(rid, ⟨rid, total, total⟩)] }) := by
  simp [Simulator.add_resource, hc]

theorem add_process_err (s : Simulator) (pid : String)
    (hc : containsK s.processes pid = true) :
    s.add_process pid = (.error ("Process " ++ pid ++ " already exists"), s) := by
  simp [Simulator.add_process, hc]

theorem add_process_ok (s : Simulator) (pid : String)
    (hc : containsK s.processes pid = false) :
    s.add_process pid
      = (.ok (), { s with processes := s.processes ++ [(pid, ⟨pid, [], [], []⟩)] }) := by
  simp [Simulator.add_process, hc]

theorem set_max_demand_err (s : Simulator) (pid rid : String) (count : Nat)
    (hp : lookupK s.processes pid = none) :
    s.set_max_demand pid rid count = (.error ("KeyError: " ++ pid), s) := by
  simp [Simulator.set_max_demand, hp]

theorem set_max_demand_ok (s : Simulator) (pid rid : String) (count : Nat)
    (p : Process) (hp : lookupK s.processes pid = some p) :
    s.set_max_demand pid rid count
      = (.ok (),
         { s with
             processes := setK s.processes pid
               { p with max_demand := setK p.max_demand rid count } }) := by
  simp [Simulator.set_max_demand, hp]

theorem request_err_pid (s : Simulator) (pid rid : String) (count : Nat)
    (hp : lookupK s.processes pid = none) :
    s.request pid rid count = (.error ("Unknown process " ++ pid), s) := by
  simp [Simulator.request, hp]

theorem request_err_rid (s : Simulator) (pid rid : String) (count : Nat)
    (p : Process) (hp : lookupK s.processes pid = some p)
    (hr : lookupK s.resources rid = none) :
    s.request pid rid count = (.error ("Unknown resource " ++ rid), s) := by
  simp [Simulator.request, hp, hr]

theorem request_grant (s : Simulator) (pid rid : String) (count : Nat)
    (p : Process) (r : Resource) (hp : lookupK s.processes pid = some p)
    (hr : lookupK s.resources rid = some r) (hcnt : count ≤ r.available) :
    s.request pid rid count
      = (.ok true,
         { s with
             resources := setK s.resources rid { r with available := r.available - count },
             processes := setK s.processes pid (grantUpd p rid count) }) := by
  simp [Simulator.request, hp, hr, hcnt]

theorem request_block (s : Simulator) (pid rid : String) (count : Nat)
    (p : Process) (r : Resource) (hp : lookupK s.processes pid = some p)
    (hr : lookupK s.resources rid = some r) (hcnt : r.available < count) :
    s.request pid rid count
      = (.ok false,
         { s with processes := setK s.processes pid (blockUpd p rid count) }) := by
  have : ¬(count ≤ r.available) := by omega
  simp [Simulator.request, hp, hr, this]

theorem release_err_pid (s : Simulator) (pid rid : String) (count : Nat)
    (hp : lookupK s.processes pid = none) :
    s.release pid rid count = (.error ("Unknown process " ++ pid), s) := by
  simp [Simulator.release, hp]

theorem release_err_rid (s : Simulator) (pid rid : String) (count : Nat)
    (p : Process) (hp : lookupK s.processes pid = some p)
    (hr : lookupK s.resources rid = none) :
    s.release pid rid count = (.error ("Unknown resource " ++ rid), s) := by
  simp [Simulator.release, hp, hr]

theorem release_ok (s : Simulator) (pid rid : String) (count : Nat)
    (p : Process) (r : Resource) (hp : lookupK s.processes pid = some p)
    (hr : lookupK s.resources rid = some r) :
    s.release pid rid count
      = (.ok (min (getK p.allocated rid) count),
         { s with
             processes := setK s.processes pid (releaseUpd p rid count),
             resources := setK s.resources rid
               { r with available := r.available + min (getK p.allocated rid) count } }) := by
  simp [Simulator.release, hp, hr]

/-! The allocation invariant: for every registered resource,
available + held-across-processes = total, registries have unique keys,
and no units of an unregistered resource are held. -/

theorem sumAlloc_nil (rid : String) : sumAlloc [] rid = 0 := rfl

def GoodState (s : Simulator) : Prop :=
  (keysOf s.resources).Nodup ∧ (keysOf s.processes).Nodup ∧
  (∀ rid r, lookupK s.resources rid = some r →
     r.available + sumAlloc s.processes rid = r.total) ∧
  ∀ rid, lookupK s.resources rid = none → sumAlloc s.processes rid = 0

theorem goodState_empty : GoodState emptySim := by
  refine ⟨List.nodup_nil, List.nodup_nil, ?_, ?_⟩
  · intro rid r h
    simp [emptySim, lookupK] at h
  · intro rid _
    rfl

theorem nodup_keys_append {α : Type} (l : List (String × α)) (k : String)
    (v : α) (h : (keysOf l).Nodup) (hk : k ∉ keysOf l) :
    (keysOf (l ++ [(k, v)])).Nodup := by
  have he : keysOf (l ++ [(k, v)]) = keysOf l ++ [k] := by simp [keysOf]
  rw [he, List.nodup_append]
  refine ⟨h, List.nodup_singleton k, ?_⟩
  intro a ha hb
  rw [List.mem_singleton] at hb
  subst hb
  exact hk ha

theorem goodState_add_resource (s : Simulator) (rid : String) (total : Nat)
    (h : GoodState s) : GoodState (s.add_resource rid total).2 := by
  obtain ⟨h1, h2, h3, h4⟩ := h
  by_cases hc : containsK s.resources rid = true
  · rw [add_resource_err s rid total hc]
    exact ⟨h1, h2, h3, h4⟩
  · have hc' : containsK s.resources rid = false := by simpa using hc
    rw [add_resource_ok s rid total hc']
    dsimp only
    have hmem : rid ∉ keysOf s.resources :=
      lookupK_eq_none_iff.mp (containsK_eq_false_iff.mp hc')
    refine ⟨nodup_keys_append s.resources rid _ h1 hmem, h2, ?_, ?_⟩
    · intro rid' r hr
      rw [lookupK_append_last] at hr
      by_cases hcr : containsK s.resources rid' = true
      · rw [if_pos hcr] at hr
        exact h3 rid' r hr
      · rw [if_neg hcr] at hr
        by_cases hrr : rid = rid'
        · rw [if_pos hrr] at hr
          injection hr with hr'
          subst hr'
          have h0 : sumAlloc s.processes rid' = 0 :=
            h4 rid' (containsK_eq_false_iff.mp (by simpa using hcr))
          simp [h0]
        · rw [if_neg hrr] at hr
          exact absurd hr (by simp)
    · intro rid' hr
      rw [lookupK_append_last] at hr
      by_cases hcr : containsK s.resources rid' = true
      · rw [if_pos hcr] at hr
        exact h4 rid' hr
      · exact h4 rid' (containsK_eq_false_iff.mp (by simpa using hcr))

theorem goodState_add_process (s : Simulator) (pid : String)
    (h : GoodState s) : GoodState (s.add_process pid).2 := by
  obtain ⟨h1, h2, h3, h4⟩ := h
  by_cases hc : containsK s.processes pid = true
  · rw [add_process_err s pid hc]
    exact ⟨h1, h2, h3, h4⟩
  · have hc' : containsK s.processes pid = false := by simpa using hc
    rw [add_process_ok s pid hc']
    dsimp only
    have hmem : pid ∉ keysOf s.processes :=
      lookupK_eq_none_iff.mp (containsK_eq_false_iff.mp hc')
    have hsum : ∀ rid',
        sumAlloc (s.processes ++ [(pid, ⟨pid, [], [], []⟩)]) rid'
          = sumAlloc s.processes rid' := by
      intro rid'
      rw [sumAlloc_append]
      simp [sumAlloc_cons, sumAlloc_nil, getK, lookupK]
    refine ⟨h1, nodup_keys_append s.processes pid _ h2 hmem, ?_, ?_⟩
    · intro rid' r hr
      rw [hsum rid']
      exact h3 rid' r hr
    · intro rid' hr
      rw [hsum rid']
      exact h4 rid' hr

theorem goodState_set_max_demand (s : Simulator) (pid rid : String)
    (count : Nat) (h : GoodState s) :
    GoodState (s.set_max_demand pid rid count).2 := by
  obtain ⟨h1, h2, h3, h4⟩ := h
  cases hp : lookupK s.processes pid with
  | none =>
    rw [set_max_demand_err s pid rid count hp]
    exact ⟨h1, h2, h3, h4⟩
  | some p =>
    rw [set_max_demand_ok s pid rid count p hp]
    dsimp only
    have hc : containsK s.processes pid = true :=
      containsK_eq_true_iff.mpr ⟨p, hp⟩
    have hsum : ∀ rid',
        sumAlloc (setK s.processes pid
            { p with max_demand := setK p.max_demand rid count }) rid'
          = sumAlloc s.processes rid' := by
      intro rid'
      exact sumAlloc_setK_eq s.processes pid p _ rid' h2 hp rfl
    refine ⟨h1, ?_, ?_, ?_⟩
    · rw [keysOf_setK_of_contains s.processes pid _ hc]
      exact h2
    · intro rid' r hr
      rw [hsum rid']
      exact h3 rid' r hr
    · intro rid' hr
      rw [hsum rid']
      exact h4 rid' hr

theorem goodState_request (s : Simulator) (pid rid : String) (count : Nat)
    (h : GoodState s) : GoodState (s.request pid rid count).2 := by
  obtain ⟨h1, h2, h3, h4⟩ := h
  cases hp : lookupK s.processes pid with
  | none =>
    rw [request_err_pid s pid rid count hp]
    exact ⟨h1, h2, h3, h4⟩
  | some p =>
    cases hr : lookupK s.resources rid with
    | none =>
      rw [request_err_rid s pid rid count p hp hr]
      exact ⟨h1, h2, h3, h4⟩
    | some r =>
      have hcp : containsK s.processes pid = true :=
        containsK_eq_true_iff.mpr ⟨p, hp⟩
      have hcr : containsK s.resources rid = true :=
        containsK_eq_true_iff.mpr ⟨r, hr⟩
      by_cases hcnt : count ≤ r.available
      · have e1 : (s.request pid rid count).2.resources
            = setK s.resources rid { r with available := r.available - count } := by
          rw [request_grant s pid rid count p r hp hr hcnt]
        have e2 : (s.request pid rid count).2.processes
            = setK s.processes pid (grantUpd p rid count) := by
          rw [request_grant s pid rid count p r hp hr hcnt]
        have hsum := fun rid' =>
          sumAlloc_setK s.processes pid p (grantUpd p rid count) rid' h2 hp
        have hga : ∀ rid',
            getK (grantUpd p rid count).allocated rid'
              = if rid = rid' then getK p.allocated rid + count
                else getK p.allocated rid' := by
          intro rid'
          rw [grantUpd_allocated, getK_setK]
        refine ⟨?_, ?_, ?_, ?_⟩
        · rw [e1, keysOf_setK_of_contains s.resources rid _ hcr]
          exact h1
        · rw [e2, keysOf_setK_of_contains s.processes pid _ hcp]
          exact h2
        · intro rid' r'' hr''
          rw [e1, lookupK_setK] at hr''
          rw [e2]
          have hs := hsum rid'
          by_cases hrr : rid = rid'
          · subst hrr
            rw [if_pos rfl] at hr''
            have hr3 : r'' = { r with available := r.available - count } := by
              injection hr'' with hx
              exact hx.symm
            subst hr3
            have hold := h3 rid r hr
            have hg := hga rid
            rw [if_pos rfl] at hg
            rw [hg] at hs
            simp only [Resource.mk.injEq]
            show r.available - count + sumAlloc (setK s.processes pid (grantUpd p rid count)) rid = r.total
            omega
          · rw [if_neg hrr] at hr''
            have hold := h3 rid' r'' hr''
            have hg := hga rid'
            rw [if_neg hrr] at hg
            rw [hg] at hs
            omega
        · intro rid' hr''
          rw [e1, lookupK_setK] at hr''
          rw [e2]
          by_cases hrr : rid = rid'
          · rw [if_pos hrr] at hr''
            exact absurd hr'' (by simp)
          · rw [if_neg hrr] at hr''
            have hold := h4 rid' hr''
            have hs := hsum rid'
            have hg := hga rid'
            rw [if_neg hrr] at hg
            rw [hg] at hs
            omega
      · have hcnt' : r.available < count := by omega
        have e2 : (s.request pid rid count).2.processes
            = setK s.processes pid (blockUpd p rid count) := by
          rw [request_block s pid rid count p r hp hr hcnt']
        have e1 : (s.request pid rid count).2.resources = s.resources := by
          rw [request_block s pid rid count p r hp hr hcnt']
        have hsum : ∀ rid',
            sumAlloc (setK s.processes pid (blockUpd p rid count)) rid'
              = sumAlloc s.processes rid' := by
          intro rid'
          exact sumAlloc_setK_eq s.processes pid p _ rid' h2 hp
            (by rw [blockUpd_allocated])
        refine ⟨?_, ?_, ?_, ?_⟩
        · rw [e1]
          exact h1
        · rw [e2, keysOf_setK_of_contains s.processes pid _ hcp]
          exact h2
        · intro rid' r'' hr''
          rw [e1] at hr''
          rw [e2, hsum rid']
          exact h3 rid' r'' hr''
        · intro rid' hr''
          rw [e1] at hr''
          rw [e2, hsum rid']
          exact h4 rid' hr''

theorem goodState_release (s : Simulator) (pid rid : String) (count : Nat)
    (h : GoodState s) : GoodState (s.release pid rid count).2 := by
  obtain ⟨h1, h2, h3, h4⟩ := h
  cases hp : lookupK s.processes pid with
  | none =>
    rw [release_err_pid s pid rid count hp]
    exact ⟨h1, h2, h3, h4⟩
  | some p =>
    cases hr : lookupK s.resources rid with
    | none =>
      rw [release_err_rid s pid rid count p hp hr]
      exact ⟨h1, h2, h3, h4⟩
    | some r =>
      have hcp : containsK s.processes pid = true :=
        containsK_eq_true_iff.mpr ⟨p, hp⟩
      have hcr : containsK s.resources rid = true :=
        containsK_eq_true_iff.mpr ⟨r, hr⟩
      have e1 : (s.release pid rid count).2.resources
          = setK s.resources rid
              { r with available := r.available + min (getK p.allocated rid) count } := by
        rw [release_ok s pid rid count p r hp hr]
      have e2 : (s.release pid rid count).2.processes
          = setK s.processes pid (releaseUpd p rid count) := by
        rw [release_ok s pid rid count p r hp hr]
      have hsum := fun rid' =>
        sumAlloc_setK s.processes pid p (releaseUpd p rid count) rid' h2 hp
      have hfree : min (getK p.allocated rid) count ≤ getK p.allocated rid :=
        Nat.min_le_left _ _
      refine ⟨?_, ?_, ?_, ?_⟩
      · rw [e1, keysOf_setK_of_contains s.resources rid _ hcr]
        exact h1
      · rw [e2, keysOf_setK_of_contains s.processes pid _ hcp]
        exact h2
      · intro rid' r'' hr''
        rw [e1, lookupK_setK] at hr''
        rw [e2]
        have hs := hsum rid'
        have hg := releaseUpd_allocated_getK p rid rid' count
        by_cases hrr : rid = rid'
        · subst hrr
          rw [if_pos rfl] at hr''
          have hr3 : r''
              = { r with available := r.available + min (getK p.allocated rid) count } := by
            injection hr'' with hx
            exact hx.symm
          subst hr3
          have hold := h3 rid r hr
          rw [if_pos rfl] at hg
          rw [hg] at hs
          show r.available + min (getK p.allocated rid) count
              + sumAlloc (setK s.processes pid (releaseUpd p rid count)) rid = r.total
          omega
        · rw [if_neg hrr] at hr''
          have hold := h3 rid' r'' hr''
          rw [if_neg hrr] at hg
          rw [hg] at hs
          omega
      · intro rid' hr''
        rw [e1, lookupK_setK] at hr''
        rw [e2]
        by_cases hrr : rid = rid'
        · rw [if_pos hrr] at hr''
          exact absurd hr'' (by simp)
        · rw [if_neg hrr] at hr''
          have hold := h4 rid' hr''
          have hs := hsum rid'
          have hg := releaseUpd_allocated_getK p rid rid' count
          rw [if_neg hrr] at hg
          rw [hg] at hs
          omega

theorem goodState_applyOp (s : Simulator) (op : Op) (h : GoodState s) :
    GoodState (applyOp s op) := by
  cases op with
  | addResource rid total => exact goodState_add_resource s rid total h
  | addProcess pid => exact goodState_add_process s pid h
  | setMaxDemand pid rid count => exact goodState_set_max_demand s pid rid count h
  | request pid rid count => exact goodState_request s pid rid count h
  | release pid rid count => exact goodState_release s pid rid count h

theorem goodState_runOps (s : Simulator) (ops : List Op) (h : GoodState s) :
    GoodState (runOps s ops) := by
  induction ops generalizing s with
  | nil => exact h
  | cons op t ih => exact ih (applyOp s op) (goodState_applyOp s op h)

/-! Accessors used to state the claims. -/

/-- The requesting entry of a registered process (0 when absent). -/
def reqOf (s : Simulator) (pid rid : String) : Nat :=
  match lookupK s.processes pid with
  | some p => getK p.requesting rid
  | none => 0

/-- The declared maximum demand of a registered process (0 when absent). -/
def maxdOf (s : Simulator) (pid rid : String) : Nat :=
  match lookupK s.processes pid with
  | some p => getK p.max_demand rid
  | none => 0

/-- The raw allocated entry of a registered process: none when the map
has no entry for the resource. -/
def allocEntry (s : Simulator) (pid rid : String) : Option Nat :=
  match lookupK s.processes pid with
  | some p => lookupK p.allocated rid
  | none => none

/-- C1: for every sequence of addResource, addProcess, setMaxDemand,
request and release operations with non-negative counts, and for every
registered resource, available plus the sum of the allocated entries of
all processes equals total after every operation, and available is at
most total. -/
theorem c1_available_invariant (ops : List Op) (rid : String) (r : Resource)
    (h : lookupK (runOps emptySim ops).resources rid = some r) :
    r.available + sumAlloc (runOps emptySim ops).processes rid = r.total
      ∧ r.available ≤ r.total := by
  obtain ⟨-, -, h3, -⟩ := goodState_runOps emptySim ops goodState_empty
  have heq := h3 rid r h
  exact ⟨heq, by omega⟩

theorem c1_available_invariant_witness :
    lookupK (runOps emptySim [Op.addResource "R1" 2, Op.addProcess "P1",
        Op.request "P1" "R1" 1]).resources "R1" = some ⟨"R1", 2, 1⟩
    ∧ ((⟨"R1", 2, 1⟩ : Resource).available
        + sumAlloc (runOps emptySim [Op.addResource "R1" 2, Op.addProcess "P1",
            Op.request "P1" "R1" 1]).processes "R1"
        = (⟨"R1", 2, 1⟩ : Resource).total
      ∧ (⟨"R1", 2, 1⟩ : Resource).available ≤ (⟨"R1", 2, 1⟩ : Resource).total) :=
  ⟨by decide,
   c1_available_invariant [Op.addResource "R1" 2, Op.addProcess "P1",
     Op.request "P1" "R1" 1] "R1" ⟨"R1", 2, 1⟩ (by decide)⟩

/-- C3: for registered pid and rid, request grants exactly when
available >= count; on grant available drops by count, allocated[rid]
rises by count and a pre-existing requesting[rid] is reduced by count
floored at 0; on refusal requesting[rid] accumulates count and available
and allocated are untouched. -/
theorem c3_request_semantics (s : Simulator) (pid rid : String) (count : Nat)
    (p : Process) (r : Resource)
    (hp : lookupK s.processes pid = some p)
    (hr : lookupK s.resources rid = some r) :
    ((s.request pid rid count).1 = Except.ok true ↔ count ≤ r.available) ∧
    (count ≤ r.available →
       availOf (s.request pid rid count).2 rid = r.available - count ∧
       allocOf (s.request pid rid count).2 pid rid = getK p.allocated rid + count ∧
       reqOf (s.request pid rid count).2 pid rid = getK p.requesting rid - count) ∧
    (r.available < count →
       (s.request pid rid count).1 = Except.ok false ∧
       reqOf (s.request pid rid count).2 pid rid = getK p.requesting rid + count ∧
       availOf (s.request pid rid count).2 rid = r.available ∧
       allocOf (s.request pid rid count).2 pid rid = getK p.allocated rid) := by
  by_cases hcnt : count ≤ r.available
  · have hsh := request_grant s pid rid count p r hp hr hcnt
    refine ⟨⟨fun _ => hcnt, fun _ => by rw [hsh]⟩, ?_, ?_⟩
    · intro _
      refine ⟨?_, ?_, ?_⟩
      · simp [availOf, hsh, lookupK_setK]
      · simp [allocOf, hsh, lookupK_setK, grantUpd_allocated, getK_setK]
      · simp [reqOf, hsh, lookupK_setK, grantUpd_requesting_getK]
    · intro hlt
      exact absurd hcnt (by omega)
  · have hlt : r.available < count := by omega
    have hsh := request_block s pid rid count p r hp hr hlt
    refine ⟨⟨fun hok => ?_, fun hc => absurd hc hcnt⟩, fun hc => absurd hc hcnt, ?_⟩
    · rw [hsh] at hok
      simp at hok
    · intro _
      refine ⟨by rw [hsh], ?_, ?_, ?_⟩
      · simp [reqOf, hsh, lookupK_setK, blockUpd_requesting_getK]
      · simp [availOf, hsh, hr]
      · simp [allocOf, hsh, lookupK_setK, blockUpd_allocated]

def simW3 : Simulator := runOps emptySim [Op.addResource "R1" 2, Op.addProcess "P1"]

theorem c3_request_semantics_witness :
    lookupK simW3.processes "P1" = some ⟨"P1", [], [], []⟩ ∧
    lookupK simW3.resources "R1" = some ⟨"R1", 2, 2⟩ ∧
    (simW3.request "P1" "R1" 1).1 = Except.ok true := by
  refine ⟨by decide, by decide, ?_⟩
  have h := c3_request_semantics simW3 "P1" "R1" 1 ⟨"P1", [], [], []⟩ ⟨"R1", 2, 2⟩
    (by decide) (by decide)
  exact h.1.mpr (by decide)

/-- C5: for registered pid and rid, release frees min(held, count),
reduces the allocated entry by that amount (deleting it when it reaches
zero, so the entry is absent after releasing at least the held amount),
adds it to available, and releasing more than held is not an error. -/
theorem c5_release_semantics (s : Simulator) (pid rid : String) (count : Nat)
    (p : Process) (r : Resource)
    (hp : lookupK s.processes pid = some p)
    (hr : lookupK s.resources rid = some r) :
    (s.release pid rid count).1 = Except.ok (min (getK p.allocated rid) count) ∧
    availOf (s.release pid rid count).2 rid
      = r.available + min (getK p.allocated rid) count ∧
    allocOf (s.release pid rid count).2 pid rid
      = getK p.allocated rid - min (getK p.allocated rid) count ∧
    allocEntry (s.release pid rid count).2 pid rid
      = if getK p.allocated rid ≤ count then none
        else some (getK p.allocated rid - count) := by
  have hsh := release_ok s pid rid count p r hp hr
  refine ⟨by rw [hsh], ?_, ?_, ?_⟩
  · simp [availOf, hsh, lookupK_setK]
  · simp [allocOf, hsh, lookupK_setK, releaseUpd_allocated_getK]
  · simp [allocEntry, hsh, lookupK_setK, releaseUpd_allocated_entry]

def simW5 : Simulator :=
  runOps emptySim [Op.addResource "R1" 2, Op.addProcess "P1", Op.request "P1" "R1" 1]

theorem c5_release_semantics_witness :
    lookupK simW5.processes "P1" = some ⟨"P1", [("R1", 1)], [], []⟩ ∧
    lookupK simW5.resources "R1" = some ⟨"R1", 2, 1⟩ ∧
    (simW5.release "P1" "R1" 5).1 = Except.ok 1 ∧
    allocEntry (simW5.release "P1" "R1" 5).2 "P1" "R1" = none := by
  refine ⟨by decide, by decide, ?_, ?_⟩
  · have h := (c5_release_semantics simW5 "P1" "R1" 5 ⟨"P1", [("R1", 1)], [], []⟩
      ⟨"R1", 2, 1⟩ (by decide) (by decide)).1
    simpa using h
  · have h := (c5_release_semantics simW5 "P1" "R1" 5 ⟨"P1", [("R1", 1)], [], []⟩
      ⟨"R1", 2, 1⟩ (by decide) (by decide)).2.2.2
    simpa using h

/-- C7: every failing operation of the core interface leaves the registry
exactly as it was: each raise in the source happens before any mutation. -/
theorem c7_no_partial_effects (s : Simulator) :
    (∀ rid total e, (s.add_resource rid total).1 = Except.error e →
       (s.add_resource rid total).2 = s) ∧
    (∀ pid e, (s.add_process pid).1 = Except.error e →
       (s.add_process pid).2 = s) ∧
    (∀ pid rid count e, (s.set_max_demand pid rid count).1 = Except.error e →
       (s.set_max_demand pid rid count).2 = s) ∧
    (∀ pid rid count e, (s.request pid rid count).1 = Except.error e →
       (s.request pid rid count).2 = s) ∧
    (∀ pid rid count e, (s.release pid rid count).1 = Except.error e →
       (s.release pid rid count).2 = s) := by
  refine ⟨?_, ?_, ?_, ?_, ?_⟩
  · intro rid total e h
    by_cases hc : containsK s.resources rid = true
    · rw [add_resource_err s rid total hc]
    · rw [add_resource_ok s rid total (by simpa using hc)] at h
      simp at h
  · intro pid e h
    by_cases hc : containsK s.processes pid = true
    · rw [add_process_err s pid hc]
    · rw [add_process_ok s pid (by simpa using hc)] at h
      simp at h
  · intro pid rid count e h
    cases hp : lookupK s.processes pid with
    | none => rw [set_max_demand_err s pid rid count hp]
    | some p =>
      rw [set_max_demand_ok s pid rid count p hp] at h
      simp at h
  · intro pid rid count e h
    cases hp : lookupK s.processes pid with
    | none => rw [request_err_pid s pid rid count hp]
    | some p =>
      cases hr : lookupK s.resources rid with
      | none => rw [request_err_rid s pid rid count p hp hr]
      | some r =>
        by_cases hcnt : count ≤ r.available
        · rw [request_grant s pid rid count p r hp hr hcnt] at h
          simp at h
        · rw [request_block s pid rid count p r hp hr (by omega)] at h
          simp at h
  · intro pid rid count e h
    cases hp : lookupK s.processes pid with
    | none => rw [release_err_pid s pid rid count hp]
    | some p =>
      cases hr : lookupK s.resources rid with
      | none => rw [release_err_rid s pid rid count p hp hr]
      | some r =>
        rw [release_ok s pid rid count p r hp hr] at h
        simp at h

theorem c7_no_partial_effects_witness :
    (simW3.add_resource "R1" 7).1 = Except.error "Resource R1 already exists" ∧
    (simW3.add_resource "R1" 7).2 = simW3 :=
  ⟨by rfl, (c7_no_partial_effects simW3).1 "R1" 7
    "Resource R1 already exists" (by rfl)⟩

/-- C8: setMaxDemand fails with an unknown-entity error exactly for
unregistered pids, and for a registered pid it succeeds for every count,
with no validation against the resource total. -/
theorem c8_set_max_demand_validation (s : Simulator) (pid rid : String)
    (count : Nat) :
    (lookupK s.processes pid = none →
       (s.set_max_demand pid rid count).1 = Except.error ("KeyError: " ++ pid)) ∧
    ∀ p, lookupK s.processes pid = some p →
      (s.set_max_demand pid rid count).1 = Except.ok () ∧
      maxdOf (s.set_max_demand pid rid count).2 pid rid = count := by
  constructor
  · intro hp
    rw [set_max_demand_err s pid rid count hp]
  · intro p hp
    have hsh := set_max_demand_ok s pid rid count p hp
    refine ⟨by rw [hsh], ?_⟩
    simp [maxdOf, hsh, lookupK_setK, getK_setK]

theorem c8_set_max_demand_validation_witness :
    ((emptySim.set_max_demand "PX" "R1" 3).1 = Except.error "KeyError: PX") ∧
    ((simW3.set_max_demand "P1" "R1" 99).1 = Except.ok () ∧
      maxdOf (simW3.set_max_demand "P1" "R1" 99).2 "P1" "R1" = 99) :=
  ⟨(c8_set_max_demand_validation emptySim "PX" "R1" 3).1 (by decide),
   (c8_set_max_demand_validation simW3 "P1" "R1" 99).2
     ⟨"P1", [], [], []⟩ (by decide)⟩

/-- C6: CheckSafety never writes the registry: the tentative grant lives
only in the working copies, so the returned state is the input state for
every outcome. -/
theorem c6_check_safety_pure (s : Simulator) (pid rid : String) (count : Nat) :
    (s.bankers_is_safe_after_grant pid rid count).2 = s := by
  unfold Simulator.bankers_is_safe_after_grant
  split
  · rfl
  · split
    · rfl
    · split
      · rfl
      · rfl

/-- C2: for a registered pid, CheckSafety returns (false, empty) whenever
rid is unknown or available is short, and otherwise reports safety as
whether the fixed point finished every registered process, returning the
constructed sequence when safe and the empty sequence when unsafe. -/
theorem c2_check_safety (s : Simulator) (pid rid : String) (count : Nat)
    (h : containsK s.processes pid = true) :
    ((containsK s.resources rid = false ∨ availOf s rid < count) →
       (s.bankers_is_safe_after_grant pid rid count).1 = Except.ok (false, [])) ∧
    (containsK s.resources rid = true → count ≤ availOf s rid →
       (s.bankers_is_safe_after_grant pid rid count).1
         = Except.ok ((bankerProcs s).all (bankerFinal s pid rid count).finish,
             if (bankerProcs s).all (bankerFinal s pid rid count).finish
             then (bankerFinal s pid rid count).seq else [])) := by
  constructor
  · intro hfail
    cases hfail with
    | inl hcr => simp [Simulator.bankers_is_safe_after_grant, hcr]
    | inr havail =>
      by_cases hcr : containsK s.resources rid = false
      · simp [Simulator.bankers_is_safe_after_grant, hcr]
      · simp [Simulator.bankers_is_safe_after_grant, hcr, havail]
  · intro hcr hge
    have hcr' : ¬(containsK s.resources rid = false) := by simp [hcr]
    have hav : ¬(availOf s rid < count) := by omega
    have hpp : ¬(containsK s.processes pid = false) := by simp [h]
    simp [Simulator.bankers_is_safe_after_grant, hcr', hav, hpp]

def simS : Simulator :=
  runOps emptySim
    [Op.addResource "R1" 2, Op.addProcess "P1", Op.setMaxDemand "P1" "R1" 2]

theorem c2_check_safety_witness :
    containsK simS.processes "P1" = true ∧
    containsK simS.resources "R1" = true ∧
    1 ≤ availOf simS "R1" ∧
    (simS.bankers_is_safe_after_grant "P1" "R1" 1).1 = Except.ok (true, ["P1"]) := by
  refine ⟨by decide, by decide, by decide, ?_⟩
  have h := (c2_check_safety simS "P1" "R1" 1 (by decide)).2 (by decide) (by decide)
  rw [h]
  rfl

/-- C10: with an unregistered pid but a registered rid with enough
availability, CheckSafety passes its fail-fast checks and then raises on
the working-copy lookup alloc[pid] instead of returning a result. -/
theorem c10_unknown_pid_raises (s : Simulator) (pid rid : String) (count : Nat)
    (hp : containsK s.processes pid = false)
    (hr : containsK s.resources rid = true)
    (ha : count ≤ availOf s rid) :
    (s.bankers_is_safe_after_grant pid rid count).1
      = Except.error ("KeyError: " ++ pid) := by
  have hr' : ¬(containsK s.resources rid = false) := by simp [hr]
  have hav : ¬(availOf s rid < count) := by omega
  simp [Simulator.bankers_is_safe_after_grant, hr', hav, hp]

theorem c10_unknown_pid_raises_witness :
    containsK simW3.processes "PX" = false ∧
    containsK simW3.resources "R1" = true ∧
    1 ≤ availOf simW3 "R1" ∧
    (simW3.bankers_is_safe_after_grant "PX" "R1" 1).1
      = Except.error "KeyError: PX" :=
  ⟨by decide, by decide, by decide,
   c10_unknown_pid_raises simW3 "PX" "R1" 1 (by decide) (by decide) (by decide)⟩

/-! Termination of the Bankers fixed point. -/

/-- Number of processes the finish map still leaves unfinished. -/
def unfinishedCount (procs : List String) (f : String → Bool) : Nat :=
  (procs.filter (fun p => !f p)).length

theorem fupd_finish_mono (f : String → Bool) (p q : String)
    (hq : f q = true) : fupd f p true q = true := by
  unfold fupd
  split <;> simp [hq]

theorem bankerPassGo_finish_mono (res : List String)
    (alloc need : String → String → Nat) (ps : List String) (st : BSt)
    (prog : Bool) (q : String) (hq : st.finish q = true) :
    ((bankerPassGo res alloc need ps st prog).1).finish q = true := by
  induction ps generalizing st prog with
  | nil => exact hq
  | cons p t ih =>
    by_cases hf : st.finish p = true
    · simp only [bankerPassGo, if_pos hf]
      exact ih st prog hq
    · by_cases hall : (res.all fun r => decide (need p r ≤ st.avail r)) = true
      · simp only [bankerPassGo, if_neg hf, if_pos hall]
        exact ih _ true (fupd_finish_mono st.finish p q hq)
      · simp only [bankerPassGo, if_neg hf, if_neg hall]
        exact ih st prog hq

theorem bankerPassGo_progress (res : List String)
    (alloc need : String → String → Nat) (ps : List String) (st : BSt)
    (h : (bankerPassGo res alloc need ps st false).2 = true) :
    ∃ p ∈ ps, st.finish p = false
      ∧ ((bankerPassGo res alloc need ps st false).1).finish p = true := by
  induction ps generalizing st with
  | nil => simp [bankerPassGo] at h
  | cons p t ih =>
    by_cases hf : st.finish p = true
    · simp only [bankerPassGo, if_pos hf] at h ⊢
      obtain ⟨q, hq, hq1, hq2⟩ := ih st h
      exact ⟨q, List.mem_cons_of_mem p hq, hq1, hq2⟩
    · have hf' : st.finish p = false := by
        cases hx : st.finish p with
        | false => rfl
        | true => exact absurd hx hf
      by_cases hall : (res.all fun r => decide (need p r ≤ st.avail r)) = true
      · simp only [bankerPassGo, if_neg hf, if_pos hall]
        refine ⟨p, List.mem_cons_self p t, hf', ?_⟩
        exact bankerPassGo_finish_mono res alloc need t _ true p
          (by unfold fupd; simp)
      · simp only [bankerPassGo, if_neg hf, if_neg hall] at h ⊢
        obtain ⟨q, hq, hq1, hq2⟩ := ih st h
        exact ⟨q, List.mem_cons_of_mem p hq, hq1, hq2⟩

theorem unfinishedCount_le (procs : List String) (f g : String → Bool)
    (hmono : ∀ q, f q = true → g q = true) :
    unfinishedCount procs g ≤ unfinishedCount procs f := by
  induction procs with
  | nil => exact Nat.le_refl 0
  | cons a t ih =>
    unfold unfinishedCount at ih ⊢
    rw [List.filter_cons, List.filter_cons]
    cases hga : g a with
    | true =>
      cases hfa : f a with
      | true => simp; omega
      | false => simp; omega
    | false =>
      have hfa : f a = false := by
        cases hfa : f a with
        | false => rfl
        | true => rw [hmono a hfa] at hga; cases hga
      rw [hfa]
      simp
      omega

theorem unfinishedCount_lt (procs : List String) (f g : String → Bool)
    (hmono : ∀ q, f q = true → g q = true)
    (hw : ∃ p ∈ procs, f p = false ∧ g p = true) :
    unfinishedCount procs g < unfinishedCount procs f := by
  induction procs with
  | nil => simp at hw
  | cons a t ih =>
    unfold unfinishedCount at ih ⊢
    rw [List.filter_cons, List.filter_cons]
    obtain ⟨p, hp, hpf, hpg⟩ := hw
    rw [List.mem_cons] at hp
    cases hp with
    | inl hpa =>
      subst hpa
      rw [hpf, hpg]
      have hle := unfinishedCount_le t f g hmono
      unfold unfinishedCount at hle
      simp
      omega
    | inr hpt =>
      have hlt := ih ⟨p, hpt, hpf, hpg⟩
      cases hga : g a with
      | true =>
        cases hfa : f a with
        | true => simp; omega
        | false => simp; omega
      | false =>
        have hfa : f a = false := by
          cases hfa : f a with
          | false => rfl
          | true => rw [hmono a hfa] at hga; cases hga
        rw [hfa]
        simp
        omega

theorem unfinishedCount_pos_of_any (procs : List String) (f : String → Bool)
    (h : procs.any (fun p => !f p) = true) :
    0 < unfinishedCount procs f := by
  rw [List.any_eq_true] at h
  obtain ⟨p, hp, hpf⟩ := h
  unfold unfinishedCount
  rw [List.length_pos]
  intro hemp
  have hmem : p ∈ procs.filter (fun p => !f p) := List.mem_filter.mpr ⟨hp, hpf⟩
  rw [hemp] at hmem
  cases hmem

theorem any_of_unfinishedCount_pos (procs : List String) (f : String → Bool)
    (h : 0 < unfinishedCount procs f) :
    procs.any (fun p => !f p) = true := by
  unfold unfinishedCount at h
  rw [List.length_pos] at h
  obtain ⟨p, hp⟩ := List.exists_mem_of_ne_nil _ h
  have hmem := List.mem_filter.mp hp
  rw [List.any_eq_true]
  exact ⟨p, hmem.1, hmem.2⟩

theorem bankerRun_terminates (procs res : List String)
    (alloc need : String → String → Nat) (fuel : Nat) :
    ∀ st : BSt, unfinishedCount procs st.finish < fuel →
      ∃ r c, bankerRun procs res alloc need fuel st = some (r, c)
        ∧ c ≤ unfinishedCount procs st.finish := by
  induction fuel with
  | zero =>
    intro st h
    omega
  | succ n ih =>
    intro st h
    rcases hps : bankerPassGo res alloc need procs st false with ⟨st', prog⟩
    cases prog with
    | false =>
      refine ⟨st', if procs.any (fun p => !st.finish p) then 1 else 0, ?_, ?_⟩
      · simp only [bankerRun, hps]
      · by_cases hany : procs.any (fun p => !st.finish p) = true
        · have hpos := unfinishedCount_pos_of_any procs st.finish hany
          rw [if_pos hany]
          omega
        · rw [if_neg hany]
          omega
    | true =>
      have hmono : ∀ q, st.finish q = true → st'.finish q = true := by
        intro q hq
        have hm := bankerPassGo_finish_mono res alloc need procs st false q hq
        rwa [hps] at hm
      have hw : ∃ p ∈ procs, st.finish p = false ∧ st'.finish p = true := by
        have hpr := bankerPassGo_progress res alloc need procs st (by rw [hps])
        rwa [hps] at hpr
      have hlt := unfinishedCount_lt procs st.finish st'.finish hmono hw
      obtain ⟨r, c, hrun, hc⟩ := ih st' (by omega)
      have hpos : 0 < unfinishedCount procs st.finish := by omega
      have hany := any_of_unfinishedCount_pos procs st.finish hpos
      refine ⟨r, c + 1, ?_, ?_⟩
      · simp only [bankerRun, hps, hrun, hany]
        simp
      · omega

theorem bankerRun_bankerLoop (procs res : List String)
    (alloc need : String → String → Nat) (fuel : Nat) :
    ∀ (st r : BSt) (c : Nat),
      bankerRun procs res alloc need fuel st = some (r, c) →
      bankerLoop procs res alloc need fuel st = r := by
  induction fuel with
  | zero =>
    intro st r c h
    simp [bankerRun] at h
  | succ n ih =>
    intro st r c h
    rcases hps : bankerPassGo res alloc need procs st false with ⟨st', prog⟩
    cases prog with
    | false =>
      simp only [bankerRun, hps, Option.some.injEq, Prod.mk.injEq] at h
      simp only [bankerLoop, hps]
      exact h.1
    | true =>
      simp only [bankerRun, hps] at h
      simp only [bankerLoop, hps]
      cases hrn : bankerRun procs res alloc need n st' with
      | none =>
        rw [hrn] at h
        simp at h
      | some rc =>
        rw [hrn] at h
        simp only [Option.map_some', Option.some.injEq, Prod.mk.injEq] at h
        have hloop := ih st' rc.1 rc.2 (by rw [hrn])
        rw [← h.1]
        exact hloop

/-- C9: the fixed point loop of the safety oracle terminates: with fuel
number-of-processes + 1 the instrumented loop reaches the pass that makes
no progress, the number of passes that examine at least one unfinished
process is at most the number of registered processes, and the state so
reached is exactly the one the oracle uses. -/
theorem c9_bankers_loop_terminates (s : Simulator) (pid rid : String)
    (count : Nat) :
    ∃ r c,
      bankerRun (bankerProcs s) (bankerRes s) (allocG s pid rid count)
          (needG s pid rid count) (s.processes.length + 1)
          (bankerInit s rid count) = some (r, c)
        ∧ c ≤ s.processes.length
        ∧ bankerFinal s pid rid count = r := by
  have hlen : unfinishedCount (bankerProcs s) (bankerInit s rid count).finish
      = s.processes.length := by
    show ((bankerProcs s).filter (fun p => !false)).length = s.processes.length
    simp [bankerProcs, keysOf]
  obtain ⟨r, c, hrun, hc⟩ :=
    bankerRun_terminates (bankerProcs s) (bankerRes s) (allocG s pid rid count)
      (needG s pid rid count) (s.processes.length + 1) (bankerInit s rid count)
      (by omega)
  refine ⟨r, c, hrun, by omega, ?_⟩
  exact bankerRun_bankerLoop (bankerProcs s) (bankerRes s)
    (allocG s pid rid count) (needG s pid rid count) (s.processes.length + 1)
    (bankerInit s rid count) r c hrun

/-! The classic two-process deadlock scenario. -/

def simC4a : Simulator :=
  runOps emptySim
    [Op.addResource "R1" 1, Op.addResource "R2" 1,
     Op.addProcess "P1", Op.addProcess "P2"]

def simC4b : Simulator := (simC4a.request "P1" "R1" 1).2

def simC4c : Simulator := (simC4b.request "P2" "R2" 1).2

def simC4d : Simulator := (simC4c.request "P1" "R2" 1).2

def simC4e : Simulator := (simC4d.request "P2" "R1" 1).2

/-- C4: with R1 and R2 of total 1 and processes P1 and P2, after the two
granted and two blocked requests of the classic scenario, detect_deadlock
reports a deadlock with a cycle containing both P1 and P2. -/
theorem c4_classic_deadlock :
    (simC4a.request "P1" "R1" 1).1 = Except.ok true ∧
    (simC4b.request "P2" "R2" 1).1 = Except.ok true ∧
    (simC4c.request "P1" "R2" 1).1 = Except.ok false ∧
    (simC4d.request "P2" "R1" 1).1 = Except.ok false ∧
    simC4e.detect_deadlock.1 = true ∧
    ∃ cyc ∈ simC4e.detect_deadlock.2, "P1" ∈ cyc ∧ "P2" ∈ cyc := by
  refine ⟨by rfl, by rfl, by rfl, by rfl, by rfl, ?_⟩
  refine ⟨["P1", "P2"], by decide, by decide, by decide⟩
